import Mathlib

/-!
Shallow embedding of the Markdown-to-ADF converter `textToADF` (and its
helper `parseInlineFormatting`) from `src/slack-rca-workflow/src/jira-service.js`,
together with theorems settling the frozen claims about it.

Conventions of the embedding:
* JS strings are modelled as `String` / `List Char`; all scanning is done on
  `List Char`.
* The JS regexes are compiled by hand into character-list scanners with the
  exact backtracking semantics of the ECMAScript patterns they embed
  (`\s`, `\w`, `\d`, `.` all follow the ECMAScript character classes).
* ADF node objects become a closed sum `Block` / a structure `TextNode`;
  an absent `marks` key is modelled as the empty mark list; a
  `bulletList`/`orderedList` node's `listItem → paragraph → inline` wrappers
  are implicit in the `List (List TextNode)` payload; a `codeBlock`'s single
  `{type: text}` child is the `text : String` field.
* `parseInlineFormatting`'s scan loop advances by at least one character per
  iteration, so it is written with a fuel argument initialised to
  `length + 1`; the fuel can never reach zero from that start value.
-/

/-- ECMAScript backtick character, written numerically. -/
def backtick : Char := Char.ofNat 96

/-- ECMAScript `\s` class (WhiteSpace ∪ LineTerminator), also the character
set stripped by `String.prototype.trim`. -/
def jsWhitespace (c : Char) : Bool :=
  let n := c.toNat
  n = 0x09 || n = 0x0A || n = 0x0B || n = 0x0C || n = 0x0D || n = 0x20 ||
  n = 0xA0 || n = 0x1680 || (0x2000 ≤ n && n ≤ 0x200A) ||
  n = 0x2028 || n = 0x2029 || n = 0x202F || n = 0x205F || n = 0x3000 ||
  n = 0xFEFF

/-- ECMAScript LineTerminator class: the characters `.` does not match. -/
def isLineTerminator (c : Char) : Bool :=
  let n := c.toNat
  n = 0x0A || n = 0x0D || n = 0x2028 || n = 0x2029

/-- ECMAScript `\w` class: ASCII letters, digits and underscore. -/
def isWordChar (c : Char) : Bool :=
  let n := c.toNat
  (0x41 ≤ n && n ≤ 0x5A) || (0x61 ≤ n && n ≤ 0x7A) ||
  (0x30 ≤ n && n ≤ 0x39) || n = 0x5F

/-- ECMAScript `\d` class: ASCII digits. -/
def isAsciiDigit (c : Char) : Bool :=
  let n := c.toNat
  0x30 ≤ n && n ≤ 0x39

/-- Model of `String.prototype.trim` on a character list. -/
def jsTrim (l : List Char) : List Char :=
  ((l.dropWhile jsWhitespace).reverse.dropWhile jsWhitespace).reverse

/-- Drop one carriage return from the head of a reversed line accumulator:
the `\r?` part of the split separator. -/
def stripCR : List Char → List Char
  | [] => []
  | c :: tl => if c = '\r' then tl else c :: tl

/-- Model of `String(text).split(/\r?\n/)` from jira-service.js line 19: every `\n`
ends a line and absorbs an immediately preceding `\r`; a lone `\r` is
ordinary content. `acc` is the current line, reversed. -/
def splitLinesAux : List Char → List Char → List (List Char)
  | [], acc => [acc.reverse]
  | c :: rest, acc =>
    if c = '\n' then (stripCR acc).reverse :: splitLinesAux rest []
    else splitLinesAux rest (c :: acc)

/-- A `marks`-bearing ADF inline mark: `{ type: 'strong' }` or
`{ type: 'code' }`. -/
inductive Mark where
  | strong : Mark
  | code : Mark
deriving DecidableEq

/-- An ADF inline text node `{ type: 'text', text, marks? }`; a missing
`marks` key is the empty list. -/
structure TextNode where
  text : String
  marks : List Mark
deriving DecidableEq

/-- ADF block nodes produced by `textToADF`. A list's payload is the list of
items, each item being the inline content of its single wrapped paragraph
(`listItem → paragraph → content` in the JS object). A `codeBlock`'s content
is its single literal text child. -/
inductive Block where
  | paragraph (content : List TextNode) : Block
  | heading (level : Nat) (content : List TextNode) : Block
  | codeBlock (language : String) (text : String) : Block
  | bulletList (items : List (List TextNode)) : Block
  | orderedList (items : List (List TextNode)) : Block
  | rule : Block
deriving DecidableEq

/-- The root document `{ type: 'doc', version: 1, content }`. -/
structure AdfDoc where
  type : String
  version : Nat
  content : List Block
deriving DecidableEq

/-- Regex `/^```(\w*)?\s*$/` from line 108: three backticks, an optional
word-character run (the captured language), then only whitespace to the end
of the line. Returns the captured group. -/
def codeBlockMatch (l : List Char) : Option (List Char) :=
  match l with
  | c1 :: c2 :: c3 :: rest =>
    if c1 = backtick && c2 = backtick && c3 = backtick then
      let lang := rest.takeWhile isWordChar
      let tail := rest.dropWhile isWordChar
      if tail.all jsWhitespace then some lang else none
    else none
  | _ => none

/-- Regex `/^(#{2,3})\s+(.*)$/` from line 137. A match needs exactly two or
three leading `#`, then a `\s` character; `\s+` is greedy, so the captured
text is the remainder after the maximal whitespace run, and `(.*)$` forces
that remainder to contain no LineTerminator. Returns (level, captured text). -/
def headingMatch (l : List Char) : Option (Nat × List Char) :=
  let k := (l.takeWhile (fun c => c = '#')).length
  let rest := l.dropWhile (fun c => c = '#')
  if k = 2 || k = 3 then
    match rest with
    | [] => none
    | c :: _ =>
      if jsWhitespace c then
        let txt := rest.dropWhile jsWhitespace
        if txt.all (fun ch => !isLineTerminator ch) then some (k, txt) else none
      else none
  else none

/-- Regex `/^-\s+(.*)$/` from line 153, with the same greedy `\s+` and
LineTerminator-free `(.*)$` analysis as `headingMatch`. -/
def bulletMatch (l : List Char) : Option (List Char) :=
  match l with
  | c0 :: c :: rest =>
    if c0 = '-' && jsWhitespace c then
      let txt := (c :: rest).dropWhile jsWhitespace
      if txt.all (fun ch => !isLineTerminator ch) then some txt else none
    else none
  | _ => none

/-- Regex `/^\d+\.\s+(.*)$/` from line 162: a maximal nonempty digit run, a
dot, then as in `bulletMatch`. -/
def numberedMatch (l : List Char) : Option (List Char) :=
  let ds := l.takeWhile isAsciiDigit
  let rest := l.dropWhile isAsciiDigit
  if ds.isEmpty then none
  else
    match rest with
    | d :: c :: rest2 =>
      if d = '.' && jsWhitespace c then
        let txt := (c :: rest2).dropWhile jsWhitespace
        if txt.all (fun ch => !isLineTerminator ch) then some txt else none
      else none
    | _ => none

/-- Regex `/^-{3,}$/` from line 171: the whole line is dashes, at least
three of them. -/
def ruleMatch (l : List Char) : Bool :=
  decide (3 ≤ l.length) && l.all (fun c => c = '-')

/-- Attempt the alternative `\*\*([^*]+?)\*\*` of the inline regex at the
start of `l`. Lazy `[^*]+?` makes the inner text the run up to the first
`*` after the opening pair, which must start a closing `**`. Returns
(inner text, rest after the match). -/
def tryBold (l : List Char) : Option (List Char × List Char) :=
  match l with
  | c1 :: c2 :: rest =>
    if c1 = '*' && c2 = '*' then
      let inner := rest.takeWhile (fun c => c ≠ '*')
      let after := rest.dropWhile (fun c => c ≠ '*')
      if inner.isEmpty then none
      else
        match after with
        | c3 :: c4 :: rest2 =>
          if c3 = '*' && c4 = '*' then some (inner, rest2) else none
        | _ => none
    else none
  | _ => none

/-- Attempt the alternative `` `([^`]+?)` `` of the inline regex at the
start of `l`, symmetric to `tryBold`. -/
def tryCode (l : List Char) : Option (List Char × List Char) :=
  match l with
  | c :: rest =>
    if c = backtick then
      let inner := rest.takeWhile (fun ch => ch ≠ backtick)
      let after := rest.dropWhile (fun ch => ch ≠ backtick)
      if inner.isEmpty then none
      else
        match after with
        | c2 :: rest2 => if c2 = backtick then some (inner, rest2) else none
        | [] => none
    else none
  | [] => none

/-- The pending plain-text run flushed before a marked span or at the end of
the scan (`result.push({type:'text', text: ...})` on lines 69 and 95). -/
def flushPending (acc : List Char) : List TextNode :=
  if acc.isEmpty then [] else [⟨String.mk acc.reverse, []⟩]

/-- The `regex.exec` loop of `parseInlineFormatting` (lines 57-101): walk the
line left to right, at each position trying the bold alternative then the
code alternative, accumulating plain characters between matches. `acc` holds
the pending plain run reversed. The scan consumes at least one character per
step, so fuel `length + 1` is never exhausted; the fuel-zero fallback emits
the remainder as plain text. -/
def scanInline : Nat → List Char → List Char → List TextNode
  | 0, l, acc =>
    flushPending acc ++ (if l.isEmpty then [] else [⟨String.mk l, []⟩])
  | _ + 1, [], acc => flushPending acc
  | fuel + 1, c :: rest, acc =>
    match tryBold (c :: rest) with
    | some (inner, rest2) =>
      flushPending acc ++ ⟨String.mk inner, [Mark.strong]⟩ :: scanInline fuel rest2 []
    | none =>
      match tryCode (c :: rest) with
      | some (inner, rest2) =>
        flushPending acc ++ ⟨String.mk inner, [Mark.code]⟩ :: scanInline fuel rest2 []
      | none => scanInline fuel rest (c :: acc)

/-- Model of `parseInlineFormatting` (lines 57-102): scan a line into inline nodes;
if the result is empty (only possible for the empty line) fall back to one
plain node holding the whole line. -/
def parseInlineFormatting (text : String) : List TextNode :=
  let r := scanInline (text.data.length + 1) text.data []
  if r.isEmpty then [⟨text, []⟩] else r

/-- The local mutable state of one `textToADF` call (lines 18-27). Buffered
code lines and the language are kept as character lists; `content` grows at
its tail like the JS `content.push`. -/
structure ConvState where
  content : List Block
  inCodeBlock : Bool
  codeBlockLang : List Char
  codeBlockContent : List (List Char)
  inBulletList : Bool
  bulletItems : List (List TextNode)
  inNumberedList : Bool
  numberedItems : List (List TextNode)
deriving DecidableEq

/-- The state at entry of the line loop. -/
def initState : ConvState :=
  ⟨[], false, [], [], false, [], false, []⟩

/-- Model of `flushBulletList` (lines 29-41): a no-op on an empty buffer. -/
def flushBulletList (s : ConvState) : ConvState :=
  if s.bulletItems.isEmpty then s
  else
    { s with
      content := s.content ++ [Block.bulletList s.bulletItems]
      bulletItems := []
      inBulletList := false }

/-- Model of `flushNumberedList` (lines 43-55): a no-op on an empty buffer. -/
def flushNumberedList (s : ConvState) : ConvState :=
  if s.numberedItems.isEmpty then s
  else
    { s with
      content := s.content ++ [Block.orderedList s.numberedItems]
      numberedItems := []
      inNumberedList := false }

/-- Model of `codeBlockLang || 'plain'` (lines 115, 126, 198). -/
def langOrPlain (lang : List Char) : String :=
  if lang.isEmpty then "plain" else String.mk lang

/-- The codeBlock node pushed on lines 113-117 and 196-200: buffered lines
joined with `'\n'`, a single literal text child. -/
def mkCodeBlock (lang : List Char) (buffered : List (List Char)) : Block :=
  Block.codeBlock (langOrPlain lang)
    (String.mk (List.intercalate ['\n'] buffered))

/-- One iteration of the line loop (lines 104-192), with the branch order of
the source: fence match, in-code-block buffering, heading, bullet item,
numbered item, horizontal rule, blank line, paragraph. -/
def processLine (s : ConvState) (line : List Char) : ConvState :=
  match codeBlockMatch line with
  | some lang =>
    if s.inCodeBlock then
      { s with
        content := s.content ++ [mkCodeBlock s.codeBlockLang s.codeBlockContent]
        codeBlockContent := []
        inCodeBlock := false
        codeBlockLang := [] }
    else
      let s1 := flushNumberedList (flushBulletList s)
      { s1 with
        inCodeBlock := true
        codeBlockLang := if lang.isEmpty then "plain".data else lang }
  | none =>
    if s.inCodeBlock then
      { s with codeBlockContent := s.codeBlockContent ++ [line] }
    else
      match headingMatch line with
      | some lt =>
        let s1 := flushNumberedList (flushBulletList s)
        { s1 with
          content := s1.content ++
            [Block.heading lt.1 [⟨String.mk (jsTrim lt.2), []⟩]] }
      | none =>
        match bulletMatch line with
        | some txt =>
          let s1 := if s.inNumberedList then flushNumberedList s else s
          { s1 with
            inBulletList := true
            bulletItems :=
              s1.bulletItems ++ [parseInlineFormatting (String.mk txt)] }
        | none =>
          match numberedMatch line with
          | some txt =>
            let s1 := if s.inBulletList then flushBulletList s else s
            { s1 with
              inNumberedList := true
              numberedItems :=
                s1.numberedItems ++ [parseInlineFormatting (String.mk txt)] }
          | none =>
            if ruleMatch line then
              let s1 := flushNumberedList (flushBulletList s)
              { s1 with content := s1.content ++ [Block.rule] }
            else if (jsTrim line).isEmpty then
              let s1 := if s.inBulletList then flushBulletList s else s
              if s1.inNumberedList then flushNumberedList s1 else s1
            else
              let s1 := flushNumberedList (flushBulletList s)
              { s1 with
                content := s1.content ++
                  [Block.paragraph (parseInlineFormatting (String.mk line))] }

/-- The whole line loop. -/
def processLines (s : ConvState) (lines : List (List Char)) : ConvState :=
  lines.foldl processLine s

/-- The end-of-input flushes (lines 194-205): an unclosed code block is
emitted only when at least one line was buffered; then the bullet buffer,
then the numbered buffer. -/
def finalizeDoc (s : ConvState) : ConvState :=
  let s1 :=
    if s.inCodeBlock && !s.codeBlockContent.isEmpty then
      { s with content := s.content ++ [mkCodeBlock s.codeBlockLang s.codeBlockContent] }
    else s
  flushNumberedList (flushBulletList s1)

/-- Model of `textToADF` (lines 15-208). The `if (!text)` guard fires exactly on the
empty string for a string-typed input. The function is a total Lean
function: it returns an `AdfDoc` for every input and can raise no error. -/
def textToADF (text : String) : AdfDoc :=
  if text = "" then { type := "doc", version := 1, content := [] }
  else
    let lines := splitLinesAux text.data []
    let final := finalizeDoc (processLines initState lines)
    { type := "doc", version := 1, content := final.content }

/-- Re-insert the source delimiters around an inline node's payload:
`**` for a strong mark, backticks for a code mark. -/
def reconChars (n : TextNode) : List Char :=
  match n.marks with
  | [Mark.strong] => '*' :: '*' :: (n.text.data ++ ['*', '*'])
  | [Mark.code] => backtick :: (n.text.data ++ [backtick])
  | _ => n.text.data

/-- A line that is not classified as any block construct: no fence, heading,
bullet-item, numbered-item or rule match, and not blank. -/
def isPlainLine (l : List Char) : Bool :=
  (codeBlockMatch l).isNone && (headingMatch l).isNone &&
  (bulletMatch l).isNone && (numberedMatch l).isNone &&
  !ruleMatch l && !(jsTrim l).isEmpty

/-! ### Character-class facts -/

theorem jsWhitespace_ne_dash {c : Char} (h : jsWhitespace c = true) : c ≠ '-' := by
  rintro rfl; exact absurd h (by decide)

theorem jsWhitespace_ne_hash {c : Char} (h : jsWhitespace c = true) : c ≠ '#' := by
  rintro rfl; exact absurd h (by decide)

theorem jsWhitespace_ne_backtick {c : Char} (h : jsWhitespace c = true) :
    c ≠ backtick := by
  rintro rfl; exact absurd h (by decide)

theorem jsWhitespace_not_digit {c : Char} (h : jsWhitespace c = true) :
    isAsciiDigit c = false := by
  by_contra hd
  rw [Bool.not_eq_false] at hd
  simp only [jsWhitespace, Bool.or_eq_true, decide_eq_true_eq,
    Bool.and_eq_true] at h
  simp only [isAsciiDigit, Bool.and_eq_true, decide_eq_true_eq] at hd
  omega

theorem isAsciiDigit_ne_dash {c : Char} (h : isAsciiDigit c = true) : c ≠ '-' := by
  rintro rfl; exact absurd h (by decide)

theorem isAsciiDigit_ne_hash {c : Char} (h : isAsciiDigit c = true) : c ≠ '#' := by
  rintro rfl; exact absurd h (by decide)

theorem isAsciiDigit_ne_backtick {c : Char} (h : isAsciiDigit c = true) :
    c ≠ backtick := by
  rintro rfl; exact absurd h (by decide)

/-! ### Null and shape lemmas for the line matchers -/

theorem codeBlockMatch_cons_ne {c : Char} (h : c ≠ backtick) (rest : List Char) :
    codeBlockMatch (c :: rest) = none := by
  match rest with
  | [] => rfl
  | [_] => rfl
  | _ :: _ :: _ => simp [codeBlockMatch, h]

theorem headingMatch_cons_ne {c : Char} (h : c ≠ '#') (rest : List Char) :
    headingMatch (c :: rest) = none := by
  simp [headingMatch, List.takeWhile_cons, h]

theorem bulletMatch_cons_ne {c : Char} (h : c ≠ '-') (rest : List Char) :
    bulletMatch (c :: rest) = none := by
  match rest with
  | [] => rfl
  | _ :: _ => simp [bulletMatch, h]

theorem numberedMatch_cons_ne {c : Char} (h : isAsciiDigit c = false)
    (rest : List Char) : numberedMatch (c :: rest) = none := by
  simp [numberedMatch, List.takeWhile_cons, h]

theorem ruleMatch_cons_ne {c : Char} (h : c ≠ '-') (rest : List Char) :
    ruleMatch (c :: rest) = false := by
  simp [ruleMatch, h]

theorem jsTrim_cons_ne {c : Char} (h : jsWhitespace c = false) (rest : List Char) :
    (jsTrim (c :: rest)).isEmpty = false := by
  have hne : jsTrim (c :: rest) ≠ [] := by
    simp only [jsTrim, List.dropWhile_cons, h]
    intro hcon
    simp only [Bool.false_eq_true, if_false, List.reverse_eq_nil_iff,
      List.dropWhile_eq_nil_iff, List.mem_reverse] at hcon
    have := hcon c (by simp)
    rw [h] at this
    cases this
  rw [Bool.eq_false_iff]
  intro htrue
  exact hne (List.isEmpty_eq_true.mp htrue)

theorem bulletMatch_shape {l : List Char} {t : List Char}
    (h : bulletMatch l = some t) : ∃ rest, l = '-' :: rest := by
  match l with
  | [] => exact absurd h (by simp [bulletMatch])
  | c :: rest =>
    by_cases h0 : c = '-'
    · exact ⟨rest, by rw [h0]⟩
    · rw [bulletMatch_cons_ne h0] at h; cases h

theorem numberedMatch_shape {l : List Char} {t : List Char}
    (h : numberedMatch l = some t) :
    ∃ c rest, l = c :: rest ∧ isAsciiDigit c = true := by
  match l with
  | [] => exact absurd h (by simp [numberedMatch])
  | c :: rest =>
    by_cases hd : isAsciiDigit c = true
    · exact ⟨c, rest, rfl, hd⟩
    · rw [numberedMatch_cons_ne (by simpa using hd)] at h; cases h

theorem jsTrim_all_ws {l : List Char} (h : ∀ c ∈ l, jsWhitespace c = true) :
    jsTrim l = [] := by
  have h1 : l.dropWhile jsWhitespace = [] := List.dropWhile_eq_nil_iff.mpr h
  simp [jsTrim, h1]

theorem matchers_none_of_blank {l : List Char}
    (h : ∀ c ∈ l, jsWhitespace c = true) :
    codeBlockMatch l = none ∧ headingMatch l = none ∧ bulletMatch l = none ∧
    numberedMatch l = none ∧ ruleMatch l = false ∧ (jsTrim l).isEmpty = true := by
  have htrim : (jsTrim l).isEmpty = true := by rw [jsTrim_all_ws h]; rfl
  match l with
  | [] => exact ⟨rfl, by decide, rfl, by decide, rfl, htrim⟩
  | c :: rest =>
    have hc : jsWhitespace c = true := h c (by simp)
    exact ⟨codeBlockMatch_cons_ne (jsWhitespace_ne_backtick hc) rest,
      headingMatch_cons_ne (jsWhitespace_ne_hash hc) rest,
      bulletMatch_cons_ne (jsWhitespace_ne_dash hc) rest,
      numberedMatch_cons_ne (jsWhitespace_not_digit hc) rest,
      ruleMatch_cons_ne (jsWhitespace_ne_dash hc) rest, htrim⟩

/-! ### Facts about lines of leading hash marks -/

theorem takeWhile_hash_line (n : Nat) (rest : List Char) :
    (List.replicate n '#' ++ ' ' :: rest).takeWhile (fun c => c = '#') =
      List.replicate n '#' ∧
    (List.replicate n '#' ++ ' ' :: rest).dropWhile (fun c => c = '#') =
      ' ' :: rest := by
  induction n with
  | zero => simp [List.takeWhile_cons, List.dropWhile_cons]
  | succ n ih =>
    simp only [List.replicate_succ, List.cons_append, List.takeWhile_cons,
      List.dropWhile_cons, decide_True, if_true, ih.1, ih.2]
    simp

theorem headingMatch_hash_not23 {n : Nat} (h : ¬(n = 2 ∨ n = 3))
    (rest : List Char) :
    headingMatch (List.replicate n '#' ++ ' ' :: rest) = none := by
  have ht := takeWhile_hash_line n rest
  simp only [headingMatch, ht.1, ht.2, List.length_replicate]
  have h2 : ¬ n = 2 := fun hc => h (Or.inl hc)
  have h3 : ¬ n = 3 := fun hc => h (Or.inr hc)
  simp [h2, h3]

theorem headingMatch_hash_23 {n : Nat} (h : n = 2 ∨ n = 3) {rest : List Char}
    (hlt : ∀ c ∈ rest, isLineTerminator c = false) :
    headingMatch (List.replicate n '#' ++ ' ' :: rest) =
      some (n, rest.dropWhile jsWhitespace) := by
  have ht := takeWhile_hash_line n rest
  have hall : (((' ' :: rest).dropWhile jsWhitespace).all
      (fun ch => !isLineTerminator ch)) = true := by
    rw [List.all_eq_true]
    intro x hx
    have hmem : x ∈ ' ' :: rest := (List.dropWhile_sublist _).subset hx
    rcases List.mem_cons.mp hmem with hsp | hm
    · subst hsp; rfl
    · rw [hlt x hm]; rfl
  have hws : jsWhitespace ' ' = true := by decide
  simp only [headingMatch, ht.1, ht.2, List.length_replicate]
  rcases h with rfl | rfl <;>
    simp [hws, hall, List.dropWhile_cons] <;>
    exact fun x hx => hlt x ((List.dropWhile_sublist _).subset hx)

/-! ### Round-trip of the inline scanner -/

theorem tryBold_eq {l inner rest2 : List Char}
    (h : tryBold l = some (inner, rest2)) :
    l = '*' :: '*' :: (inner ++ '*' :: '*' :: rest2) := by
  match l with
  | [] => simp [tryBold] at h
  | [c] => simp [tryBold] at h
  | c1 :: c2 :: rest =>
    simp only [tryBold] at h
    split at h
    next hcc =>
      rw [Bool.and_eq_true, decide_eq_true_eq, decide_eq_true_eq] at hcc
      obtain ⟨rfl, rfl⟩ := hcc
      split at h
      next => cases h
      next hne =>
        split at h
        next c3 c4 r2 hdw =>
          split at h
          next hcc2 =>
            rw [Bool.and_eq_true, decide_eq_true_eq, decide_eq_true_eq] at hcc2
            obtain ⟨rfl, rfl⟩ := hcc2
            simp only [Option.some.injEq, Prod.mk.injEq] at h
            obtain ⟨rfl, rfl⟩ := h
            have hsplit : rest.takeWhile (fun c => c ≠ '*') ++
                rest.dropWhile (fun c => c ≠ '*') = rest :=
              List.takeWhile_append_dropWhile _ _
            rw [hdw] at hsplit
            exact congrArg (fun t => '*' :: '*' :: t) hsplit.symm
          next => cases h
        next => cases h
    next => cases h

theorem tryCode_eq {l inner rest2 : List Char}
    (h : tryCode l = some (inner, rest2)) :
    l = backtick :: (inner ++ backtick :: rest2) := by
  match l with
  | [] => simp [tryCode] at h
  | c :: rest =>
    simp only [tryCode] at h
    split at h
    next hcc =>
      subst hcc
      split at h
      next => cases h
      next hne =>
        split at h
        next c2 r2 hdw =>
          split at h
          next hcc2 =>
            subst hcc2
            simp only [Option.some.injEq, Prod.mk.injEq] at h
            obtain ⟨rfl, rfl⟩ := h
            have hsplit : rest.takeWhile (fun ch => ch ≠ backtick) ++
                rest.dropWhile (fun ch => ch ≠ backtick) = rest :=
              List.takeWhile_append_dropWhile _ _
            rw [hdw] at hsplit
            exact congrArg (fun t => backtick :: t) hsplit.symm
          next => cases h
        next => cases h
    next => cases h

theorem flushPending_recon (acc : List Char) :
    (List.map reconChars (flushPending acc)).flatten = acc.reverse := by
  cases acc <;> simp [flushPending, reconChars]

theorem scanInline_recon (fuel : Nat) :
    ∀ (l acc : List Char),
      (List.map reconChars (scanInline fuel l acc)).flatten = acc.reverse ++ l := by
  induction fuel with
  | zero =>
    intro l acc
    cases l <;>
      simp [scanInline, flushPending_recon, reconChars, List.map_append,
        List.flatten_append]
  | succ fuel ih =>
    intro l acc
    cases l with
    | nil => simp [scanInline, flushPending_recon]
    | cons c rest =>
      cases htb : tryBold (c :: rest) with
      | some pr =>
        obtain ⟨inner, rest2⟩ := pr
        have hshape := tryBold_eq htb
        simp only [scanInline, htb]
        rw [List.map_append, List.flatten_append, flushPending_recon,
          List.map_cons, List.flatten_cons, ih rest2 [], hshape]
        simp [reconChars]
      | none =>
        cases htc : tryCode (c :: rest) with
        | some pr =>
          obtain ⟨inner, rest2⟩ := pr
          have hshape := tryCode_eq htc
          simp only [scanInline, htb, htc]
          rw [List.map_append, List.flatten_append, flushPending_recon,
            List.map_cons, List.flatten_cons, ih rest2 [], hshape]
          simp [reconChars]
        | none =>
          simp only [scanInline, htb, htc]
          rw [ih rest (c :: acc)]
          simp

/-! ### Flush and branch lemmas for the line loop -/

theorem flushBulletList_empty {s : ConvState} (h : s.bulletItems = []) :
    flushBulletList s = s := by
  simp [flushBulletList, h]

theorem flushNumberedList_empty {s : ConvState} (h : s.numberedItems = []) :
    flushNumberedList s = s := by
  simp [flushNumberedList, h]

theorem processLine_close {s : ConvState} {line lang : List Char}
    (h : codeBlockMatch line = some lang) (hc : s.inCodeBlock = true) :
    processLine s line =
      { s with
        content := s.content ++ [mkCodeBlock s.codeBlockLang s.codeBlockContent]
        codeBlockContent := []
        inCodeBlock := false
        codeBlockLang := [] } := by
  simp [processLine, h, hc]

theorem processLine_open {s : ConvState} {line lang : List Char}
    (h : codeBlockMatch line = some lang) (hc : s.inCodeBlock = false) :
    processLine s line =
      (let s1 := flushNumberedList (flushBulletList s)
       { s1 with
         inCodeBlock := true
         codeBlockLang := if lang.isEmpty then "plain".data else lang }) := by
  simp [processLine, h, hc]

theorem processLine_buffer {s : ConvState} {line : List Char}
    (h : codeBlockMatch line = none) (hc : s.inCodeBlock = true) :
    processLine s line =
      { s with codeBlockContent := s.codeBlockContent ++ [line] } := by
  simp [processLine, h, hc]

theorem processLine_heading {s : ConvState} {line txt : List Char} {k : Nat}
    (h1 : codeBlockMatch line = none) (hc : s.inCodeBlock = false)
    (h2 : headingMatch line = some (k, txt)) :
    processLine s line =
      (let s1 := flushNumberedList (flushBulletList s)
       { s1 with
         content := s1.content ++
           [Block.heading k [⟨String.mk (jsTrim txt), []⟩]] }) := by
  simp [processLine, h1, hc, h2]

theorem processLine_bullet {s : ConvState} {line txt : List Char}
    (h1 : codeBlockMatch line = none) (hc : s.inCodeBlock = false)
    (h2 : headingMatch line = none) (h3 : bulletMatch line = some txt) :
    processLine s line =
      (let s1 := if s.inNumberedList then flushNumberedList s else s
       { s1 with
         inBulletList := true
         bulletItems :=
           s1.bulletItems ++ [parseInlineFormatting (String.mk txt)] }) := by
  simp [processLine, h1, hc, h2, h3]

theorem processLine_numbered {s : ConvState} {line txt : List Char}
    (h1 : codeBlockMatch line = none) (hc : s.inCodeBlock = false)
    (h2 : headingMatch line = none) (h3 : bulletMatch line = none)
    (h4 : numberedMatch line = some txt) :
    processLine s line =
      (let s1 := if s.inBulletList then flushBulletList s else s
       { s1 with
         inNumberedList := true
         numberedItems :=
           s1.numberedItems ++ [parseInlineFormatting (String.mk txt)] }) := by
  simp [processLine, h1, hc, h2, h3, h4]

theorem processLine_blank {s : ConvState} {line : List Char}
    (h1 : codeBlockMatch line = none) (hc : s.inCodeBlock = false)
    (h2 : headingMatch line = none) (h3 : bulletMatch line = none)
    (h4 : numberedMatch line = none) (h5 : ruleMatch line = false)
    (h6 : (jsTrim line).isEmpty = true) :
    processLine s line =
      (let s1 := if s.inBulletList then flushBulletList s else s
       if s1.inNumberedList then flushNumberedList s1 else s1) := by
  simp [processLine, h1, hc, h2, h3, h4, h5, h6]

theorem processLine_paragraph {s : ConvState} {line : List Char}
    (h1 : codeBlockMatch line = none) (hc : s.inCodeBlock = false)
    (h2 : headingMatch line = none) (h3 : bulletMatch line = none)
    (h4 : numberedMatch line = none) (h5 : ruleMatch line = false)
    (h6 : (jsTrim line).isEmpty = false) :
    processLine s line =
      (let s1 := flushNumberedList (flushBulletList s)
       { s1 with
         content := s1.content ++
           [Block.paragraph (parseInlineFormatting (String.mk line))] }) := by
  simp [processLine, h1, hc, h2, h3, h4, h5, h6]

/-! ### Claim theorems -/

/-- C2, counterexample: on the line `"**a**"` the scanner produces a single
strong-marked node with payload `"a"`, so the concatenation of the text
payloads is `"a"`, which is not the original line: the `**` delimiters of a
matched pair are consumed, not reproduced. -/
theorem c2_payload_concat_fails :
    parseInlineFormatting "**a**" = [⟨"a", [Mark.strong]⟩] ∧
    String.join (List.map TextNode.text (parseInlineFormatting "**a**")) = "a" ∧
    ("a" : String) ≠ "**a**" := by
  refine ⟨?_, ?_, ?_⟩ <;> decide

/-- C2, amended: for every line, the inline nodes produced by
`parseInlineFormatting` reproduce the line character for character once each
strong payload is re-wrapped in `**` and each code payload in backticks
(`reconChars`); in particular for a line with no matched delimiter pair
(all nodes unmarked) the payload concatenation itself is the line. -/
theorem c2_inline_round_trip (s : String) :
    (List.map reconChars (parseInlineFormatting s)).flatten = s.data := by
  unfold parseInlineFormatting
  cases hr : (scanInline (s.data.length + 1) s.data []).isEmpty with
  | false =>
    simp only [hr, Bool.false_eq_true, if_false]
    have := scanInline_recon (s.data.length + 1) s.data []
    simpa using this
  | true =>
    simp only [hr, if_true]
    simp [reconChars]

/-- C5: the converter is a total function into `AdfDoc` (it can raise no
error on any string input); the empty string maps to the document with the
empty block sequence, and every output is a version-1 `doc` node. -/
theorem c5_total_empty_doc :
    textToADF "" = { type := "doc", version := 1, content := [] } ∧
    ∀ s : String, (textToADF s).type = "doc" ∧ (textToADF s).version = 1 := by
  refine ⟨rfl, fun s => ?_⟩
  unfold textToADF
  by_cases h : s = "" <;> simp [h]

/-- C1, counterexample: `"```js"` ends input with an open code block whose
buffer holds zero lines; the final flush on line 195 requires a nonempty
buffer, so no CodeBlock is emitted and the output block sequence is empty,
where the claim requires one final CodeBlock even for zero buffered lines. -/
theorem c1_empty_buffer_dropped :
    textToADF "```js" = { type := "doc", version := 1, content := [] } := by
  rfl

/-- C1, amended: if end of input is reached while a code block is open and
at least one line has been buffered, the converter emits one final CodeBlock
whose content is the buffered lines joined by newlines (a still-open buffer
with zero lines is dropped). -/
theorem c1_unclosed_fence_flush (st : ConvState)
    (hc : st.inCodeBlock = true) (hne : st.codeBlockContent ≠ [])
    (hb : st.bulletItems = []) (hn : st.numberedItems = []) :
    (finalizeDoc st).content =
      st.content ++ [mkCodeBlock st.codeBlockLang st.codeBlockContent] := by
  have hie : st.codeBlockContent.isEmpty = false := by
    rw [Bool.eq_false_iff]
    intro h
    exact hne (List.isEmpty_eq_true.mp h)
  unfold finalizeDoc
  simp [hc, hie, flushBulletList, flushNumberedList, hb, hn]

/-- C1 witness: the amended flush at the concrete end state of
`"```js\nlet x=1;"`, plus the full-pipeline example from the claim. -/
theorem c1_unclosed_fence_flush_witness :
    (finalizeDoc ⟨[], true, "js".data, ["let x=1;".data], false, [], false, []⟩).content =
      [Block.codeBlock "js" "let x=1;"] ∧
    textToADF "```js\nlet x=1;" =
      { type := "doc", version := 1,
        content := [Block.codeBlock "js" "let x=1;"] } := by
  constructor
  · have := c1_unclosed_fence_flush
      ⟨[], true, "js".data, ["let x=1;".data], false, [], false, []⟩
      rfl (List.cons_ne_nil _ _) rfl rfl
    rw [this]
    decide
  · rfl

/-- C3, counterexample: inside a code block opened with language `a`, the
line `"```js"` (three backticks plus a language word) closes the block
rather than being buffered: the output is a CodeBlock holding only `"x"`
followed by a paragraph, not one CodeBlock holding the `"```js"` line. -/
theorem c3_language_fence_closes :
    textToADF "```a\nx\n```js\ny" =
      { type := "doc", version := 1,
        content := [Block.codeBlock "a" "x", Block.paragraph [⟨"y", []⟩]] } ∧
    textToADF "```a\nx\n```js\ny" ≠
      { type := "doc", version := 1,
        content := [Block.codeBlock "a" "x\n```js\ny"] } := by
  constructor
  · rfl
  · decide

/-- C3, amended: while a code block is open, exactly the lines matching the
fence pattern (three backticks, an optional language word, optional trailing
whitespace) end it, flushing a CodeBlock with the buffered language and the
buffered lines joined by newlines; every non-fence line — headings, list
items, rules, blank lines included — is appended verbatim to the code
buffer and classified as nothing else. -/
theorem c3_fence_close_inside_code (st : ConvState) (line : List Char)
    (hc : st.inCodeBlock = true) :
    (∀ lang, codeBlockMatch line = some lang →
      processLine st line =
        { st with
          content := st.content ++ [mkCodeBlock st.codeBlockLang st.codeBlockContent]
          codeBlockContent := []
          inCodeBlock := false
          codeBlockLang := [] }) ∧
    (codeBlockMatch line = none →
      processLine st line =
        { st with codeBlockContent := st.codeBlockContent ++ [line] }) :=
  ⟨fun _ h => processLine_close h hc, fun h => processLine_buffer h hc⟩

/-- C3 witness: from a state holding buffer `["x"]` and language `a`, the
fence-with-word line `"```js"` closes the block, while the heading-looking
line `"## h"` is buffered verbatim. -/
theorem c3_fence_close_inside_code_witness :
    processLine ⟨[], true, "a".data, ["x".data], false, [], false, []⟩ ("```js".data) =
      ⟨[Block.codeBlock "a" "x"], false, [], [], false, [], false, []⟩ ∧
    processLine ⟨[], true, "a".data, ["x".data], false, [], false, []⟩ ("## h".data) =
      ⟨[], true, "a".data, ["x".data, "## h".data], false, [], false, []⟩ := by
  constructor
  · have := (c3_fence_close_inside_code
      ⟨[], true, "a".data, ["x".data], false, [], false, []⟩ ("```js".data) rfl).1
      ("js".data) (by decide)
    rw [this]
    decide
  · have := (c3_fence_close_inside_code
      ⟨[], true, "a".data, ["x".data], false, [], false, []⟩ ("## h".data) rfl).2
      (by decide)
    rw [this]
    decide

/-- C6, counterexample: with a code buffer open, a blank line is buffered as
code content rather than triggering a flush: `"```\na\n\nb\n```"` yields a
single CodeBlock whose text contains the blank line, not two blocks split at
the blank. -/
theorem c6_blank_buffered_in_code :
    textToADF "```\na\n\nb\n```" =
      { type := "doc", version := 1,
        content := [Block.codeBlock "plain" "a\n\nb"] } ∧
    (textToADF "```\na\n\nb\n```").content ≠
      [Block.codeBlock "plain" "a", Block.codeBlock "plain" "b"] := by
  constructor
  · rfl
  · decide

/-- C6, amended: on a blank (whitespace-only) line, when no code block is
open the only effect is flushing any open list buffer (nothing else is
emitted, in particular no empty Paragraph); when a code block is open the
blank line is buffered verbatim as code content. -/
theorem c6_blank_line_flush (st : ConvState) (line : List Char)
    (hw : ∀ c ∈ line, jsWhitespace c = true) :
    (st.inCodeBlock = false →
      processLine st line =
        (let s1 := if st.inBulletList then flushBulletList st else st
         if s1.inNumberedList then flushNumberedList s1 else s1)) ∧
    (st.inCodeBlock = true →
      processLine st line =
        { st with codeBlockContent := st.codeBlockContent ++ [line] }) := by
  obtain ⟨m1, m2, m3, m4, m5, m6⟩ := matchers_none_of_blank hw
  exact ⟨fun hc => processLine_blank m1 hc m2 m3 m4 m5 m6,
         fun hc => processLine_buffer m1 hc⟩

/-- C6 witness: the blank line after buffering the two bullet items of
`"- a\n- b"` only flushes the BulletList, and the full pipeline on
`"- a\n- b\n\nplain"` gives that BulletList followed by one Paragraph with
nothing for the blank line. -/
theorem c6_blank_line_flush_witness :
    processLine ⟨[], false, [], [], true, [[⟨"a", []⟩], [⟨"b", []⟩]], false, []⟩ [] =
      ⟨[Block.bulletList [[⟨"a", []⟩], [⟨"b", []⟩]]], false, [], [], false, [], false, []⟩ ∧
    textToADF "- a\n- b\n\nplain" =
      { type := "doc", version := 1,
        content := [Block.bulletList [[⟨"a", []⟩], [⟨"b", []⟩]],
                    Block.paragraph [⟨"plain", []⟩]] } := by
  constructor
  · have := (c6_blank_line_flush
      ⟨[], false, [], [], true, [[⟨"a", []⟩], [⟨"b", []⟩]], false, []⟩ []
      (by simp)).1 rfl
    rw [this]
    decide
  · rfl

theorem jsTrim_dropWhile (l : List Char) :
    jsTrim (l.dropWhile jsWhitespace) = jsTrim l := by
  simp [jsTrim, List.dropWhile_idempotent]

/-- C7, counterexample: the heading regex's `(.*)$` cannot span a
LineTerminator, and a lone carriage return survives the `\r?\n` split as
line content, so the line `"## a\rb"` — which begins with two `#` and a
space — is not matched and becomes an inline-scanned Paragraph, not a
Heading. -/
theorem c7_lone_cr_paragraph :
    textToADF "## a\rb" =
      { type := "doc", version := 1,
        content := [Block.paragraph [⟨"## a\rb", []⟩]] } ∧
    (textToADF "## a\rb").content ≠ [Block.heading 2 [⟨"a\rb", []⟩]] := by
  constructor
  · rfl
  · decide

/-- C7, amended: outside a code block, a line of exactly two or three `#`
characters followed by a space, whose remainder contains no LineTerminator
character (lone CR, U+2028, U+2029), emits a Heading (after flushing any
open list) whose level equals the number of `#` characters — hence within
[2,6] — and whose content is a single plain-text node (no marks) holding
the trimmed remainder of the line; a remainder containing a LineTerminator
defeats the regex and the line falls through to a Paragraph. -/
theorem c7_heading_emission (st : ConvState) (n : Nat) (rest : List Char)
    (hc : st.inCodeBlock = false) (hn : n = 2 ∨ n = 3)
    (hlt : ∀ c ∈ rest, isLineTerminator c = false) :
    processLine st (List.replicate n '#' ++ ' ' :: rest) =
      (let s1 := flushNumberedList (flushBulletList st)
       { s1 with
         content := s1.content ++
           [Block.heading n [⟨String.mk (jsTrim rest), []⟩]] }) ∧
    2 ≤ n ∧ n ≤ 6 := by
  refine ⟨?_, by rcases hn with rfl | rfl <;> omega⟩
  have hhm := headingMatch_hash_23 hn hlt
  have hcb : codeBlockMatch (List.replicate n '#' ++ ' ' :: rest) = none := by
    rcases hn with rfl | rfl <;> exact codeBlockMatch_cons_ne (by decide) _
  rw [processLine_heading hcb hc hhm, jsTrim_dropWhile]

/-- C7 witness: the heading rule at `"## Title"`, plus the full pipeline on
that input. -/
theorem c7_heading_emission_witness :
    processLine initState ("## Title".data) =
      ⟨[Block.heading 2 [⟨"Title", []⟩]], false, [], [], false, [], false, []⟩ ∧
    textToADF "## Title" =
      { type := "doc", version := 1,
        content := [Block.heading 2 [⟨"Title", []⟩]] } := by
  constructor
  · have := (c7_heading_emission initState 2 ("Title".data) rfl (Or.inl rfl)
      (by decide)).1
    rw [show ("## Title".data) = List.replicate 2 '#' ++ ' ' :: "Title".data
      from rfl]
    rw [this]
    decide
  · rfl

theorem headingMatch_some_level {l : List Char} {k : Nat} {t : List Char}
    (h : headingMatch l = some (k, t)) : k = 2 ∨ k = 3 := by
  simp only [headingMatch] at h
  split at h
  next hk =>
    rw [Bool.or_eq_true, decide_eq_true_eq, decide_eq_true_eq] at hk
    split at h
    next => cases h
    next c rest' =>
      split at h
      next =>
        split at h
        next =>
          simp only [Option.some.injEq, Prod.mk.injEq] at h
          obtain ⟨rfl, rfl⟩ := h
          exact hk
        next => cases h
      next => cases h
  next => cases h

/-- C10: outside a code block, a line of exactly one `#`, or of four or more
`#` characters, followed by a space, is never a Heading: it becomes an
inline-scanned Paragraph holding the whole line (after flushing any open
list); and the heading matcher only ever fires with level two or three. -/
theorem c10_hash_lines_paragraph (st : ConvState)
    (hc : st.inCodeBlock = false) :
    (∀ (n : Nat) (rest : List Char), n = 1 ∨ 4 ≤ n →
      processLine st (List.replicate n '#' ++ ' ' :: rest) =
        (let s1 := flushNumberedList (flushBulletList st)
         { s1 with
           content := s1.content ++
             [Block.paragraph (parseInlineFormatting
               (String.mk (List.replicate n '#' ++ ' ' :: rest)))] })) ∧
    (∀ (l : List Char) (k : Nat) (t : List Char),
      headingMatch l = some (k, t) → k = 2 ∨ k = 3) := by
  constructor
  · intro n rest hn
    have hsh : ∃ tl, List.replicate n '#' ++ ' ' :: rest = '#' :: tl := by
      rcases hn with rfl | h4
      · exact ⟨' ' :: rest, rfl⟩
      · match n, h4 with
        | m + 4, _ =>
          exact ⟨List.replicate (m + 3) '#' ++ ' ' :: rest,
            by simp [List.replicate_succ]⟩
    obtain ⟨tl, heq⟩ := hsh
    have hcb : codeBlockMatch (List.replicate n '#' ++ ' ' :: rest) = none := by
      rw [heq]; exact codeBlockMatch_cons_ne (by decide) _
    have hh : headingMatch (List.replicate n '#' ++ ' ' :: rest) = none :=
      headingMatch_hash_not23 (by omega) rest
    have hbm : bulletMatch (List.replicate n '#' ++ ' ' :: rest) = none := by
      rw [heq]; exact bulletMatch_cons_ne (by decide) _
    have hnm : numberedMatch (List.replicate n '#' ++ ' ' :: rest) = none := by
      rw [heq]; exact numberedMatch_cons_ne (by decide) _
    have hrm : ruleMatch (List.replicate n '#' ++ ' ' :: rest) = false := by
      rw [heq]; exact ruleMatch_cons_ne (by decide) _
    have htr : (jsTrim (List.replicate n '#' ++ ' ' :: rest)).isEmpty = false := by
      rw [heq]; exact jsTrim_cons_ne (by decide) _
    exact processLine_paragraph hcb hc hh hbm hnm hrm htr
  · exact fun l k t h => headingMatch_some_level h

/-- C10 witness: the paragraph rule at `"#### x"`, plus the full pipeline on
that input. -/
theorem c10_hash_lines_paragraph_witness :
    processLine initState ("#### x".data) =
      ⟨[Block.paragraph [⟨"#### x", []⟩]], false, [], [], false, [], false, []⟩ ∧
    textToADF "#### x" =
      { type := "doc", version := 1,
        content := [Block.paragraph [⟨"#### x", []⟩]] } := by
  constructor
  · have := (c10_hash_lines_paragraph initState rfl).1 4 ("x".data)
      (Or.inr (by omega))
    rw [show ("#### x".data) = List.replicate 4 '#' ++ ' ' :: "x".data
      from rfl]
    rw [this]
    decide
  · rfl

/-- C8: with empty list buffers and no open code block, a bulleted item line
immediately followed by a numbered item line flushes the bullet buffer
before the numbered item is buffered (and symmetrically for a numbered item
line followed by a bulleted one), so after the end-of-input flush the two
items sit in two separate list nodes, never one merged list. -/
theorem c8_list_kind_change_splits (st : ConvState)
    (hc : st.inCodeBlock = false) (hb : st.bulletItems = [])
    (hn : st.numberedItems = []) :
    (∀ la lb ta tb, bulletMatch la = some ta → numberedMatch lb = some tb →
      (finalizeDoc (processLine (processLine st la) lb)).content =
        st.content ++
          [Block.bulletList [parseInlineFormatting (String.mk ta)],
           Block.orderedList [parseInlineFormatting (String.mk tb)]]) ∧
    (∀ la lb ta tb, numberedMatch la = some ta → bulletMatch lb = some tb →
      (finalizeDoc (processLine (processLine st la) lb)).content =
        st.content ++
          [Block.orderedList [parseInlineFormatting (String.mk ta)],
           Block.bulletList [parseInlineFormatting (String.mk tb)]]) := by
  constructor
  · intro la lb ta tb hla hlb
    obtain ⟨ra, rfl⟩ := bulletMatch_shape hla
    obtain ⟨cb, rb, rfl, hdb⟩ := numberedMatch_shape hlb
    have hcba : codeBlockMatch ('-' :: ra) = none :=
      codeBlockMatch_cons_ne (by decide) _
    have hha : headingMatch ('-' :: ra) = none :=
      headingMatch_cons_ne (by decide) _
    have hcbb : codeBlockMatch (cb :: rb) = none :=
      codeBlockMatch_cons_ne (isAsciiDigit_ne_backtick hdb) _
    have hhb : headingMatch (cb :: rb) = none :=
      headingMatch_cons_ne (isAsciiDigit_ne_hash hdb) _
    have hbmb : bulletMatch (cb :: rb) = none :=
      bulletMatch_cons_ne (isAsciiDigit_ne_dash hdb) _
    rw [processLine_bullet hcba hc hha hla]
    simp only [flushNumberedList_empty hn, if_pos, ite_self]
    rw [processLine_numbered
      (s := { st with
        inBulletList := true
        bulletItems := st.bulletItems ++ [parseInlineFormatting (String.mk ta)] })
      hcbb hc hhb hbmb hlb]
    simp [flushBulletList, flushNumberedList, finalizeDoc, hb, hn, hc]
  · intro la lb ta tb hla hlb
    obtain ⟨ca, ra, rfl, hda⟩ := numberedMatch_shape hla
    obtain ⟨rb, rfl⟩ := bulletMatch_shape hlb
    have hcba : codeBlockMatch (ca :: ra) = none :=
      codeBlockMatch_cons_ne (isAsciiDigit_ne_backtick hda) _
    have hha : headingMatch (ca :: ra) = none :=
      headingMatch_cons_ne (isAsciiDigit_ne_hash hda) _
    have hbma : bulletMatch (ca :: ra) = none :=
      bulletMatch_cons_ne (isAsciiDigit_ne_dash hda) _
    have hcbb : codeBlockMatch ('-' :: rb) = none :=
      codeBlockMatch_cons_ne (by decide) _
    have hhb : headingMatch ('-' :: rb) = none :=
      headingMatch_cons_ne (by decide) _
    rw [processLine_numbered hcba hc hha hbma hla]
    simp only [flushBulletList_empty hb, if_pos, ite_self]
    rw [processLine_bullet
      (s := { st with
        inNumberedList := true
        numberedItems := st.numberedItems ++ [parseInlineFormatting (String.mk ta)] })
      hcbb hc hhb hlb]
    simp [flushBulletList, flushNumberedList, finalizeDoc, hb, hn, hc]

/-- C8 witness: the split at the concrete line pairs in both orders, plus
the full pipeline on `"- a\n1. b"`. -/
theorem c8_list_kind_change_splits_witness :
    (finalizeDoc (processLine (processLine initState ("- a".data)) ("1. b".data))).content =
      [Block.bulletList [[⟨"a", []⟩]], Block.orderedList [[⟨"b", []⟩]]] ∧
    (finalizeDoc (processLine (processLine initState ("1. a".data)) ("- b".data))).content =
      [Block.orderedList [[⟨"a", []⟩]], Block.bulletList [[⟨"b", []⟩]]] ∧
    textToADF "- a\n1. b" =
      { type := "doc", version := 1,
        content := [Block.bulletList [[⟨"a", []⟩]],
                    Block.orderedList [[⟨"b", []⟩]]] } := by
  refine ⟨?_, ?_, by rfl⟩
  · have := (c8_list_kind_change_splits initState rfl rfl rfl).1
      ("- a".data) ("1. b".data) ("a".data) ("b".data) (by decide) (by decide)
    rw [this]
    decide
  · have := (c8_list_kind_change_splits initState rfl rfl rfl).2
      ("1. a".data) ("- b".data) ("a".data) ("b".data) (by decide) (by decide)
    rw [this]
    decide

theorem processLines_plain (lines : List (List Char)) :
    ∀ st : ConvState, (∀ l ∈ lines, isPlainLine l = true) →
      st.inCodeBlock = false → st.bulletItems = [] → st.numberedItems = [] →
      processLines st lines =
        { st with
          content := st.content ++ lines.map
            (fun l => Block.paragraph (parseInlineFormatting (String.mk l))) } := by
  induction lines with
  | nil =>
    intro st _ _ _ _
    simp [processLines]
  | cons l ls ih =>
    intro st hall hc hb hn
    have hl := hall l (by simp)
    simp only [isPlainLine, Bool.and_eq_true, Option.isNone_iff_eq_none,
      Bool.not_eq_true'] at hl
    obtain ⟨⟨⟨⟨⟨m1, m2⟩, m3⟩, m4⟩, m5⟩, m6⟩ := hl
    rw [processLines, List.foldl_cons, processLine_paragraph m1 hc m2 m3 m4 m5 m6]
    simp only [flushBulletList_empty hb, flushNumberedList_empty hn]
    have hrec := ih { st with content := st.content ++
        [Block.paragraph (parseInlineFormatting (String.mk l))] }
      (fun x hx => hall x (by simp [hx])) hc hb hn
    rw [show List.foldl processLine { st with content := st.content ++
        [Block.paragraph (parseInlineFormatting (String.mk l))] } ls =
      processLines { st with content := st.content ++
        [Block.paragraph (parseInlineFormatting (String.mk l))] } ls from rfl]
    rw [hrec]
    simp

/-- C9: for every input string whose lines are all plain (no fence, heading,
list-item or rule markers and no blank lines), the output block sequence is
exactly one inline-scanned Paragraph per input line, in input order. -/
theorem c9_plain_lines_paragraphs (s : String)
    (h : ∀ l ∈ splitLinesAux s.data [], isPlainLine l = true) :
    textToADF s =
      { type := "doc", version := 1,
        content := (splitLinesAux s.data []).map
          (fun l => Block.paragraph (parseInlineFormatting (String.mk l))) } := by
  by_cases hs : s = ""
  · subst hs
    exact absurd (h [] (by decide)) (by decide)
  · have hT : textToADF s =
        { type := "doc", version := 1,
          content :=
            (finalizeDoc (processLines initState (splitLinesAux s.data []))).content } := by
      unfold textToADF
      rw [if_neg hs]
    have hp := processLines_plain (splitLinesAux s.data []) initState h rfl rfl rfl
    rw [hT, hp]
    simp [finalizeDoc, flushBulletList, flushNumberedList, initState]

/-- C9 witness: the theorem at `"hello\nworld"`, two plain lines giving two
paragraphs in order. -/
theorem c9_plain_lines_paragraphs_witness :
    textToADF "hello\nworld" =
      { type := "doc", version := 1,
        content := [Block.paragraph [⟨"hello", []⟩],
                    Block.paragraph [⟨"world", []⟩]] } := by
  rw [c9_plain_lines_paragraphs "hello\nworld" (by decide)]
  decide

/-! ### Line-splitting lemmas for fenced inputs -/

theorem intercalate_one (sep a : List Char) : List.intercalate sep [a] = a := by
  simp [List.intercalate, List.intersperse]

theorem intercalate_two (sep a b : List Char) (tl : List (List Char)) :
    List.intercalate sep (a :: b :: tl) =
      a ++ (sep ++ List.intercalate sep (b :: tl)) := by
  simp [List.intercalate, List.intersperse]

theorem splitLinesAux_append_newline {l : List Char}
    (h : ∀ c ∈ l, c ≠ '\n' ∧ c ≠ '\r') (rest : List Char) :
    ∀ acc, stripCR acc = acc →
      splitLinesAux (l ++ '\n' :: rest) acc =
        (acc.reverse ++ l) :: splitLinesAux rest [] := by
  induction l with
  | nil =>
    intro acc hacc
    simp [splitLinesAux, hacc]
  | cons c tl ih =>
    intro acc hacc
    have hc := h c (by simp)
    simp only [List.cons_append, splitLinesAux]
    rw [if_neg (by simpa using hc.1)]
    simp only [List.append_eq]
    rw [ih (fun x hx => h x (by simp [hx])) (c :: acc) (by simp [stripCR, hc.2])]
    simp

theorem splitLinesAux_append_crlf {l : List Char}
    (h : ∀ c ∈ l, c ≠ '\n' ∧ c ≠ '\r') (rest : List Char) :
    ∀ acc, stripCR acc = acc →
      splitLinesAux (l ++ '\r' :: '\n' :: rest) acc =
        (acc.reverse ++ l) :: splitLinesAux rest [] := by
  induction l with
  | nil =>
    intro acc hacc
    simp [splitLinesAux, stripCR, hacc]
  | cons c tl ih =>
    intro acc hacc
    have hc := h c (by simp)
    simp only [List.cons_append, splitLinesAux]
    rw [if_neg (by simpa using hc.1)]
    simp only [List.append_eq]
    rw [ih (fun x hx => h x (by simp [hx])) (c :: acc) (by simp [stripCR, hc.2])]
    simp

theorem splitLinesAux_last {l : List Char}
    (h : ∀ c ∈ l, c ≠ '\n' ∧ c ≠ '\r') :
    ∀ acc, splitLinesAux l acc = [acc.reverse ++ l] := by
  induction l with
  | nil => intro acc; simp [splitLinesAux]
  | cons c tl ih =>
    intro acc
    have hc := h c (by simp)
    simp only [splitLinesAux]
    rw [if_neg (by simpa using hc.1), ih (fun x hx => h x (by simp [hx])) (c :: acc)]
    simp

theorem splitLinesAux_intercalate_nl {ls : List (List Char)} (hne : ls ≠ [])
    (h : ∀ l ∈ ls, ∀ c ∈ l, c ≠ '\n' ∧ c ≠ '\r') (rest : List Char) :
    splitLinesAux (List.intercalate ['\n'] ls ++ '\n' :: rest) [] =
      ls ++ splitLinesAux rest [] := by
  induction ls with
  | nil => exact absurd rfl hne
  | cons a tl ih =>
    cases tl with
    | nil =>
      rw [intercalate_one, splitLinesAux_append_newline (h a (by simp)) rest [] rfl]
      simp
    | cons b tl2 =>
      rw [intercalate_two]
      have hshape : (a ++ (['\n'] ++ List.intercalate ['\n'] (b :: tl2))) ++
          '\n' :: rest =
          a ++ '\n' :: (List.intercalate ['\n'] (b :: tl2) ++ '\n' :: rest) := by
        simp
      rw [hshape, splitLinesAux_append_newline (h a (by simp)) _ [] rfl]
      rw [ih (by simp) (fun x hx => h x (by simp [hx]))]
      simp

theorem splitLinesAux_intercalate_crlf {ls : List (List Char)} (hne : ls ≠ [])
    (h : ∀ l ∈ ls, ∀ c ∈ l, c ≠ '\n' ∧ c ≠ '\r') (rest : List Char) :
    splitLinesAux (List.intercalate ['\r', '\n'] ls ++ '\r' :: '\n' :: rest) [] =
      ls ++ splitLinesAux rest [] := by
  induction ls with
  | nil => exact absurd rfl hne
  | cons a tl ih =>
    cases tl with
    | nil =>
      rw [intercalate_one, splitLinesAux_append_crlf (h a (by simp)) rest [] rfl]
      simp
    | cons b tl2 =>
      rw [intercalate_two]
      have hshape : (a ++ (['\r', '\n'] ++ List.intercalate ['\r', '\n'] (b :: tl2))) ++
          '\r' :: '\n' :: rest =
          a ++ '\r' :: '\n' ::
            (List.intercalate ['\r', '\n'] (b :: tl2) ++ '\r' :: '\n' :: rest) := by
        simp
      rw [hshape, splitLinesAux_append_crlf (h a (by simp)) _ [] rfl]
      rw [ih (by simp) (fun x hx => h x (by simp [hx]))]
      simp

theorem processLines_code (ls : List (List Char)) :
    ∀ st : ConvState, st.inCodeBlock = true →
      (∀ l ∈ ls, codeBlockMatch l = none) →
      processLines st ls =
        { st with codeBlockContent := st.codeBlockContent ++ ls } := by
  induction ls with
  | nil => intro st _ _; simp [processLines]
  | cons l tl ih =>
    intro st hc hall
    rw [processLines, List.foldl_cons, processLine_buffer (hall l (by simp)) hc]
    have hrec := ih { st with codeBlockContent := st.codeBlockContent ++ [l] }
      hc (fun x hx => hall x (by simp [hx]))
    rw [show List.foldl processLine
        { st with codeBlockContent := st.codeBlockContent ++ [l] } tl =
      processLines { st with codeBlockContent := st.codeBlockContent ++ [l] } tl
      from rfl]
    rw [hrec]
    simp

/-- C4, counterexample: with `\r\n` line endings the characters between the
fences are not reproduced exactly — the `\r` of each `\r\n` separator is
discarded by the line split — so `"```\na\r\nb\r\n```"` yields CodeBlock
content `"a\nb"`, which differs from the original between-fence text
`"a\r\nb"`. -/
theorem c4_crlf_not_exact :
    textToADF "```\na\r\nb\r\n```" =
      { type := "doc", version := 1,
        content := [Block.codeBlock "plain" "a\nb"] } ∧
    ("a\nb" : String) ≠ "a\r\nb" := by
  constructor
  · rfl
  · decide

theorem fenced_lines_content (ls : List (List Char))
    (hcb : ∀ l ∈ ls, codeBlockMatch l = none) :
    (finalizeDoc (processLines initState
        ("```".data :: (ls ++ ["```".data])))).content =
      [Block.codeBlock "plain" (String.mk (List.intercalate ['\n'] ls))] := by
  have h1 : processLine initState ("```".data) =
      ⟨[], true, "plain".data, [], false, [], false, []⟩ := by decide
  rw [processLines, List.foldl_cons, h1, List.foldl_append]
  rw [show List.foldl processLine
      (⟨[], true, "plain".data, [], false, [], false, []⟩ : ConvState) ls =
    processLines ⟨[], true, "plain".data, [], false, [], false, []⟩ ls from rfl]
  rw [processLines_code ls ⟨[], true, "plain".data, [], false, [], false, []⟩
    rfl hcb]
  simp only [List.foldl_cons, List.foldl_nil]
  rw [processLine_close
    (show codeBlockMatch ("```".data) = some [] by decide) rfl]
  have hlang : langOrPlain ("plain".data) = "plain" := rfl
  simp [finalizeDoc, flushBulletList, flushNumberedList, mkCodeBlock, hlang]

/-- C4, amended: a CodeBlock's content is the single literal join of its
buffered lines (never inline-scanned). For an input written with `\n` line
endings the content reproduces the characters between the fences exactly —
every line break and all leading/trailing whitespace of each line preserved;
for the same lines written with `\r\n` endings the output is the identical
document, i.e. each `\r\n` break is normalized to `\n` and everything else
is preserved exactly. -/
theorem c4_codeblock_content_exact (ls : List (List Char)) (hne : ls ≠ [])
    (hcb : ∀ l ∈ ls, codeBlockMatch l = none)
    (hnl : ∀ l ∈ ls, ∀ c ∈ l, c ≠ '\n' ∧ c ≠ '\r') :
    textToADF (String.mk ("```".data ++ '\n' ::
        (List.intercalate ['\n'] ls ++ '\n' :: "```".data))) =
      { type := "doc", version := 1,
        content := [Block.codeBlock "plain"
          (String.mk (List.intercalate ['\n'] ls))] } ∧
    textToADF (String.mk ("```".data ++ '\r' :: '\n' ::
        (List.intercalate ['\r', '\n'] ls ++ '\r' :: '\n' :: "```".data))) =
      { type := "doc", version := 1,
        content := [Block.codeBlock "plain"
          (String.mk (List.intercalate ['\n'] ls))] } := by
  have hfence : ∀ c ∈ ("```".data : List Char), c ≠ '\n' ∧ c ≠ '\r' := by decide
  constructor
  · set L := "```".data ++ '\n' ::
      (List.intercalate ['\n'] ls ++ '\n' :: "```".data) with hL
    have hsne : String.mk L ≠ "" := by
      intro hcon
      have hdata := congrArg String.data hcon
      rw [hL] at hdata
      exact List.cons_ne_nil _ _ (List.append_eq_nil.mp hdata).1
    have hT : textToADF (String.mk L) =
        { type := "doc", version := 1,
          content := (finalizeDoc (processLines initState
            (splitLinesAux L []))).content } := by
      unfold textToADF
      rw [if_neg hsne]
    have hsplit : splitLinesAux L [] = "```".data :: (ls ++ ["```".data]) := by
      rw [hL, splitLinesAux_append_newline hfence _ [] rfl,
        splitLinesAux_intercalate_nl hne hnl, splitLinesAux_last hfence []]
      simp
    rw [hT, hsplit, fenced_lines_content ls hcb]
  · set L := "```".data ++ '\r' :: '\n' ::
      (List.intercalate ['\r', '\n'] ls ++ '\r' :: '\n' :: "```".data) with hL
    have hsne : String.mk L ≠ "" := by
      intro hcon
      have hdata := congrArg String.data hcon
      rw [hL] at hdata
      exact List.cons_ne_nil _ _ (List.append_eq_nil.mp hdata).1
    have hT : textToADF (String.mk L) =
        { type := "doc", version := 1,
          content := (finalizeDoc (processLines initState
            (splitLinesAux L []))).content } := by
      unfold textToADF
      rw [if_neg hsne]
    have hsplit : splitLinesAux L [] = "```".data :: (ls ++ ["```".data]) := by
      rw [hL, splitLinesAux_append_crlf hfence _ [] rfl,
        splitLinesAux_intercalate_crlf hne hnl, splitLinesAux_last hfence []]
      simp
    rw [hT, hsplit, fenced_lines_content ls hcb]

/-- C4 witness: the amended theorem at the two-line code body
`["let x=1;", "  done  "]`, under both line-ending conventions. -/
theorem c4_codeblock_content_exact_witness :
    textToADF "```\nlet x=1;\n  done  \n```" =
      { type := "doc", version := 1,
        content := [Block.codeBlock "plain" "let x=1;\n  done  "] } ∧
    textToADF "```\r\nlet x=1;\r\n  done  \r\n```" =
      { type := "doc", version := 1,
        content := [Block.codeBlock "plain" "let x=1;\n  done  "] } := by
  have h := c4_codeblock_content_exact ["let x=1;".data, "  done  ".data]
    (by decide) (by decide) (by decide)
  constructor
  · have h1 := h.1
    rw [show String.mk ("```".data ++ '\n' ::
        (List.intercalate ['\n'] ["let x=1;".data, "  done  ".data] ++
          '\n' :: "```".data)) = "```\nlet x=1;\n  done  \n```" from by decide] at h1
    rw [h1]
    decide
  · have h2 := h.2
    rw [show String.mk ("```".data ++ '\r' :: '\n' ::
        (List.intercalate ['\r', '\n'] ["let x=1;".data, "  done  ".data] ++
          '\r' :: '\n' :: "```".data)) = "```\r\nlet x=1;\r\n  done  \r\n```" from by decide] at h2
    rw [h2]
    decide
